import Mathlib

/-!
Verification development for the sticky-note OCR record keeper
(`ocr_drug_test_adder.py`).

The pipeline under study is:
  * `parse_fields` — corrections pass, labeled regex extraction, label-free
    fallbacks, required-field validation;
  * `add_to_csv` — read-modify-write append to the CSV store with a fixed
    canonical column order;
  * the fragment reconstruction step of `extract_text_from_image` — stable
    sort of OCR fragments by top-left y coordinate, joined with spaces.

Texts are modelled as `List Char`.  Each Python regular expression used by
the source is hand-translated into a dedicated scanner whose semantics
follow Python `re.search`: the match is attempted at every start position
from left to right, and within a position greedy/lazy quantifiers backtrack
exactly as Python's engine does (see `starBT`).  Exceptions that the source
catches (`ValueError`/`IndexError` around date parsing) are modelled with
`Option`; the one exception `parse_fields` deliberately raises is modelled
with `Except`.
-/

/-- ASCII digit test, i.e. the regex class `\d` (the source only ever meets
ASCII input; Python's `\d` on ASCII is exactly `0`-`9`). -/
def isDigitC (c : Char) : Bool := decide ('0' ≤ c) && decide (c ≤ '9')

/-- ASCII letter test, i.e. the regex class `[A-Za-z]`. -/
def isAlphaC (c : Char) : Bool :=
  (decide ('A' ≤ c) && decide (c ≤ 'Z')) || (decide ('a' ≤ c) && decide (c ≤ 'z'))

/-- The regex class `\s` (also Python's `str.strip` default set):
space, tab, newline, carriage return, vertical tab, form feed. -/
def isSpaceRe (c : Char) : Bool :=
  decide (c = ' ') || decide (c = '\t') || decide (c = '\n') ||
  decide (c = '\r') || decide (c = '\x0b') || decide (c = '\x0c')

/-- The regex class `[:\s]` used as label/value separator in the patterns. -/
def isColonSpace (c : Char) : Bool := decide (c = ':') || isSpaceRe c

/-- The regex class `[A-Za-z\s]` (the `Name`/`Department` value class). -/
def alphaSpace (c : Char) : Bool := isAlphaC c || isSpaceRe c

/-- ASCII lower-casing of one character, as `re.IGNORECASE` folds case. -/
def lowerC (c : Char) : Char :=
  if decide ('A' ≤ c) && decide (c ≤ 'Z') then Char.ofNat (c.toNat + 32) else c

/-- ASCII upper-casing of one character, as Python `str.upper` on ASCII. -/
def upperC (c : Char) : Char :=
  if decide ('a' ≤ c) && decide (c ≤ 'z') then Char.ofNat (c.toNat - 32) else c

/-- Python `str.capitalize` on ASCII: first character upper-cased, all
remaining characters lower-cased. -/
def capitalizePy : List Char → List Char
  | [] => []
  | c :: cs => upperC c :: cs.map lowerC

/-- Python `str.strip()`: drop whitespace from both ends. -/
def stripL (l : List Char) : List Char :=
  ((l.dropWhile isSpaceRe).reverse.dropWhile isSpaceRe).reverse

/-- Does `p` occur at the very start of `l`? -/
def startsW : List Char → List Char → Bool
  | [], _ => true
  | _ :: _, [] => false
  | p :: ps, c :: cs => decide (p = c) && startsW ps cs

/-- Fueled worker for `replaceAll`; the fuel only serves termination and is
always supplied large enough (one unit per character of the subject). -/
def replaceAllAux : Nat → List Char → List Char → List Char → List Char
  | 0, l, _, _ => l
  | _ + 1, [], _, _ => []
  | fuel + 1, c :: cs, old, new =>
    if !old.isEmpty && startsW old (c :: cs) then
      new ++ replaceAllAux fuel ((c :: cs).drop old.length) old new
    else
      c :: replaceAllAux fuel cs old new

/-- Python `str.replace(old, new)`: replace every non-overlapping occurrence
of `old`, scanning left to right and never rescanning inserted text.  (All
correction keys in the source are non-empty, so the empty-`old` guard is
never taken.) -/
def replaceAll (l old new : List Char) : List Char :=
  replaceAllAux (l.length + 1) l old new

/-- Python `str.split(sep)` for a one-character separator: empty pieces are
kept, and the result is always non-empty. -/
def splitOnChar (sep : Char) : List Char → List (List Char)
  | [] => [[]]
  | c :: cs =>
    let r := splitOnChar sep cs
    if c = sep then [] :: r
    else
      match r with
      | h :: t => (c :: h) :: t
      | [] => [[c]]

/-- Numeric value of a digit string (digits are guaranteed by callers). -/
def digitsToNat (l : List Char) : Nat :=
  l.foldl (fun acc c => 10 * acc + (c.toNat - 48)) 0

/-- Python `int(s)` restricted to what `parse_fields` can feed it: optional
surrounding whitespace, an optional single sign, then at least one ASCII
digit; anything else raises `ValueError`, modelled as `none`.  (The calling
regex in fact only ever produces bare digit strings.) -/
def parsePyInt (s : List Char) : Option Int :=
  match stripL s with
  | '+' :: ds => if !ds.isEmpty && ds.all isDigitC then some (digitsToNat ds) else none
  | '-' :: ds => if !ds.isEmpty && ds.all isDigitC then some (-(digitsToNat ds : Int)) else none
  | ds => if !ds.isEmpty && ds.all isDigitC then some (digitsToNat ds) else none

/-- Character for a decimal digit value. -/
def digitChar (d : Nat) : Char := Char.ofNat (48 + d)

/-- Big-endian decimal digits of `n`; fuel-driven purely for termination
(`n + 1` units always suffice since the argument shrinks by `/ 10`). -/
def natDigitsAux : Nat → Nat → List Char
  | 0, _ => []
  | _ + 1, 0 => []
  | fuel + 1, n => natDigitsAux fuel (n / 10) ++ [digitChar (n % 10)]

/-- Python `f-string` formatting `f"{n:0wd}"` for a non-negative integer:
decimal digits left-padded with zeros to width `w`. -/
def fmtPadNat (w : Nat) (n : Nat) : List Char :=
  let ds := if n = 0 then ['0'] else natDigitsAux (n + 1) n
  List.replicate (w - ds.length) '0' ++ ds

/-- Python `f"{n:0wd}"` on an `int` (the sign counts towards the width). -/
def fmtPadInt (w : Nat) (n : Int) : List Char :=
  if n < 0 then '-' :: fmtPadNat (w - 1) n.natAbs else fmtPadNat w n.toNat

/-- Gregorian leap-year rule, as `datetime` uses. -/
def isLeap (y : Int) : Bool :=
  (decide (y % 4 = 0) && decide (y % 100 ≠ 0)) || decide (y % 400 = 0)

/-- Number of days of month `m` in year `y`. -/
def daysInMonth (y m : Int) : Int :=
  if m = 2 then (if isLeap y then 29 else 28)
  else if m = 4 || m = 6 || m = 9 || m = 11 then 30
  else 31

/-- Does `datetime.strptime(f"{y:04d}-{m:02d}-{d:02d}", "%Y-%m-%d")`
succeed?  `datetime` requires `MINYEAR = 1 ≤ y ≤ 9999 = MAXYEAR`, a month
`1..12` and a day within the month; out-of-range components make the
rendered string fail the format match or the constructor check. -/
def validYMD (y m d : Int) : Bool :=
  decide (1 ≤ y) && decide (y ≤ 9999) && decide (1 ≤ m) && decide (m ≤ 12) &&
  decide (1 ≤ d) && decide (d ≤ daysInMonth y m)

/-- Lines 80-85 of the source: split the raw date on `/`, unpack as
`month, day, year = map(int, ...)`, render `f"{year:04d}-{month:02d}-{day:02d}"`
and validate it with `strptime`; any `ValueError`/`IndexError` is caught and
yields `None` (here `none`). -/
def normalizeDate (v : List Char) : Option (List Char) :=
  match (splitOnChar '/' v).mapM parsePyInt with
  | some [m, d, y] =>
    if validYMD y m d then
      some (fmtPadInt 4 y ++ '-' :: (fmtPadInt 2 m ++ '-' :: fmtPadInt 2 d))
    else none
  | _ => none

/-!
## Regex machinery

Each Python pattern is rendered as a matcher `List Char → Option (List Char)`
that attempts the pattern at the front of its argument and returns the
captured value.  `searchAux` supplies `re.search` semantics: the leftmost
start position admitting a match wins.
-/

/-- `re.search`: try the matcher at position 0, 1, 2, … (including the empty
suffix) and return the first success. -/
def searchAux (m : List Char → Option (List Char)) : List Char → Option (List Char)
  | [] => m []
  | c :: cs =>
    match m (c :: cs) with
    | some v => some v
    | none => searchAux m cs

/-- Case-insensitive literal at the front of the subject (the pattern `p` is
given lower-cased); returns the rest of the subject. -/
def matchLitCI : List Char → List Char → Option (List Char)
  | [], l => some l
  | _ :: _, [] => none
  | p :: ps, c :: cs => if lowerC c = p then matchLitCI ps cs else none

/-- Greedy star with backtracking, exactly as Python's engine runs `cls*`
followed by a continuation: consume as many `cls` characters as possible,
then on failure of the continuation give characters back one at a time. -/
def starBT (cls : Char → Bool) (cont : List Char → Option (List Char)) : List Char → Option (List Char)
  | [] => cont []
  | c :: cs =>
    if cls c then
      match starBT cls cont cs with
      | some v => some v
      | none => cont (c :: cs)
    else cont (c :: cs)

/-- Continuation for the group `([A-Za-z\s]+)` (greedy, at least one). -/
def contAlphaSpace (r : List Char) : Option (List Char) :=
  let g := r.takeWhile alphaSpace
  if g.isEmpty then none else some g

/-- Continuation for the group `([A-Za-z]+)` (greedy, at least one). -/
def contAlpha (r : List Char) : Option (List Char) :=
  let g := r.takeWhile isAlphaC
  if g.isEmpty then none else some g

/-- Continuation for the group `(\d{6})`: exactly six digits here. -/
def contDigits6 (r : List Char) : Option (List Char) :=
  let g := r.take 6
  if decide (g.length = 6) && g.all isDigitC then some g else none

/-- Continuation for `(.+?)(?=\n|$)` and also for a trailing greedy `(.+)`:
both capture everything from here up to the next newline or the end of the
subject, requiring at least one character and failing on an immediate
newline (`.` never matches `\n`). -/
def contDotLine (r : List Char) : Option (List Char) :=
  match r with
  | [] => none
  | c :: _ => if c = '\n' then none else some (r.takeWhile (fun x => !decide (x = '\n')))

/-- The greedy `\d{1,2}` munch: at most two leading digits. -/
def takeDigits12 (l : List Char) : List Char := (l.takeWhile isDigitC).take 2

/-- Require a literal `/` here; return what follows it. -/
def slashThen : List Char → Option (List Char)
  | [] => none
  | c :: rest => if c = '/' then some rest else none

/-- The date shape `\d{1,2}/\d{1,2}/\d{4}` at the front of the subject,
returning the matched substring.  `\d{1,2}` is greedy; capping the digit
munch at two and then requiring `/` reproduces Python's backtracking, since
giving a digit back always leaves a digit (never `/`) at the required slash
position. -/
def matchDateAt (l : List Char) : Option (List Char) :=
  if (takeDigits12 l).isEmpty then none else
  (slashThen (l.drop (takeDigits12 l).length)).bind fun r1 =>
    if (takeDigits12 r1).isEmpty then none else
    (slashThen (r1.drop (takeDigits12 r1).length)).bind fun r2 =>
      if decide ((r2.take 4).length = 4) && (r2.take 4).all isDigitC then
        some (takeDigits12 l ++ '/' :: (takeDigits12 r1 ++ '/' :: r2.take 4))
      else none

/-- An alternation of labels, each tried in order at this position, each
followed by the same tail — Python backtracks into the next alternative when
the tail fails. -/
def matchLabeled (labels : List (List Char)) (tail : List Char → Option (List Char))
    (l : List Char) : Option (List Char) :=
  match labels with
  | [] => none
  | p :: ps =>
    match (matchLitCI p l).bind tail with
    | some v => some v
    | none => matchLabeled ps tail l

/-- A bare alternation of case-insensitive literals (no tail); the capture is
the matched text in its original casing. -/
def matchAltLit (labels : List (List Char)) (l : List Char) : Option (List Char) :=
  match labels with
  | [] => none
  | p :: ps =>
    match matchLitCI p l with
    | some _ => some (l.take p.length)
    | none => matchAltLit ps l

/-- One labeled primary pattern `(?:label1|label2)[:\s]*⟨group⟩`, searched
case-insensitively over the whole subject. -/
def searchPattern (labels : List (List Char)) (cont : List Char → Option (List Char))
    (t : List Char) : Option (List Char) :=
  searchAux (matchLabeled labels (starBT isColonSpace cont)) t

/-- `r'EmployeeID[:\s]*(\d{6})'` with `re.IGNORECASE`. -/
def searchEmpP (t : List Char) : Option (List Char) :=
  searchPattern ["employeeid".toList] contDigits6 t

/-- `r'Name[:\s]*([A-Za-z\s]+)'` with `re.IGNORECASE`. -/
def searchNameP (t : List Char) : Option (List Char) :=
  searchPattern ["name".toList] contAlphaSpace t

/-- `r'(?:Department|IT)[:\s]*([A-Za-z\s]+)'` with `re.IGNORECASE`. -/
def searchDeptP (t : List Char) : Option (List Char) :=
  searchPattern ["department".toList, "it".toList] contAlphaSpace t

/-- `r'(?:TestDate|9/14/2025)[:\s]*(\d{1,2}/\d{1,2}/\d{4})'` with `re.IGNORECASE`. -/
def searchDateP (t : List Char) : Option (List Char) :=
  searchPattern ["testdate".toList, "9/14/2025".toList] matchDateAt t

/-- `r'(?:TestType|Blood)[:\s]*([A-Za-z]+)'` with `re.IGNORECASE`. -/
def searchTypeP (t : List Char) : Option (List Char) :=
  searchPattern ["testtype".toList, "blood".toList] contAlpha t

/-- `r'(?:Result|Negative)[:\s]*([A-Za-z]+)'` with `re.IGNORECASE`. -/
def searchResP (t : List Char) : Option (List Char) :=
  searchPattern ["result".toList, "negative".toList] contAlpha t

/-- `r'(?:Notes|Random test)[:\s]*(.+?)(?=\n|$)'` with `re.IGNORECASE`. -/
def searchNotesP (t : List Char) : Option (List Char) :=
  searchPattern ["notes".toList, "random test".toList] contDotLine t

/-- Fallback matcher `\d{6}` at one position. -/
def match6At (l : List Char) : Option (List Char) :=
  let g := l.take 6
  if decide (g.length = 6) && g.all isDigitC then some g else none

/-- Fallback `re.search(r'\d{6}', text)` — `group()` is the six digits. -/
def search6 (t : List Char) : Option (List Char) := searchAux match6At t

/-- Fallback pattern `(Peter\s*[A-Za-z]+)` with `re.IGNORECASE` at one
position; `group()` keeps the original casing of the whole match.  `\s*`
and `[A-Za-z]+` are disjoint classes, so the greedy munch needs no
backtracking here. -/
def matchPeterAt (l : List Char) : Option (List Char) := do
  let r ← matchLitCI "peter".toList l
  let sp := r.takeWhile isSpaceRe
  let r2 := r.drop sp.length
  let g := r2.takeWhile isAlphaC
  if g.isEmpty then none else some (l.take 5 ++ sp ++ g)

/-- Fallback `re.search(r'(Peter\s*[A-Za-z]+)', text, re.IGNORECASE)`. -/
def searchPeterFb (t : List Char) : Option (List Char) := searchAux matchPeterAt t

/-- Fallback `re.search(r'(IT|Dept)', text, re.IGNORECASE)` (before `.upper()`). -/
def searchDeptFb (t : List Char) : Option (List Char) :=
  searchAux (matchAltLit ["it".toList, "dept".toList]) t

/-- Fallback `re.search(r'(\d{1,2}/\d{1,2}/\d{4})', text)` — the raw date. -/
def searchDateFb (t : List Char) : Option (List Char) := searchAux matchDateAt t

/-- Fallback `re.search(r'(Blood|Urine|Hair|Saliva)', text, re.IGNORECASE)`
(before `.capitalize()`). -/
def searchTypeFb (t : List Char) : Option (List Char) :=
  searchAux (matchAltLit ["blood".toList, "urine".toList, "hair".toList, "saliva".toList]) t

/-- Fallback `re.search(r'(Negative|Positive|Pending)', text, re.IGNORECASE)`
(before `.capitalize()`). -/
def searchResFb (t : List Char) : Option (List Char) :=
  searchAux (matchAltLit ["negative".toList, "positive".toList, "pending".toList]) t

/-- Fallback `re.search(r'Notes\s*(.+)', text, re.IGNORECASE)` — `group(1)`. -/
def searchNotesFb (t : List Char) : Option (List Char) :=
  searchAux (fun l => (matchLitCI "notes".toList l).bind (starBT isSpaceRe contDotLine)) t

/-!
## The field parser (`parse_fields`)
-/

/-- The fixed-schema record `parse_fields` builds (`None` ⇒ `none`; note a
field can also legitimately hold the empty string, which Python treats as
falsy exactly like `None`). -/
structure Fields where
  employeeID : Option (List Char)
  name : Option (List Char)
  department : Option (List Char)
  testDate : Option (List Char)
  testType : Option (List Char)
  result : Option (List Char)
  notes : Option (List Char)
deriving DecidableEq, Repr

/-- Step 1 of `parse_fields`: the hardcoded OCR-misread correction table, in
dict insertion order. -/
def corrections : List (List Char × List Char) :=
  [ ("EmPloxe TUl".toList, "EmployeeID".toList)
  , ("91 91".toList, "911911".toList)
  , ("Nam e [".toList, "Name".toList)
  , ("Go kon".toList, "Brifon".toList)
  , ("Peloarz".toList, "Peter".toList)
  , ("TT".toList, "IT".toList)
  , ("414n) 025".toList, "9/14/2025".toList)
  , ("Test Tz/c7".toList, "TestType".toList)
  , ("Bloos".toList, "Blood".toList)
  , ("Koroj".toList, "Result".toList)
  , ("Kegaon +ot".toList, "Negative".toList)
  , ("No ko".toList, "Notes".toList)
  , ("Ronv om +est".toList, "Random test".toList) ]

/-- Apply every correction in table order (`text = text.replace(old, new)`). -/
def applyCorrections (t : List Char) : List Char :=
  corrections.foldl (fun acc p => replaceAll acc p.1 p.2) t

/-- Step 2 of `parse_fields`: the labeled primary patterns; every captured
value is `.strip()`ped, and the `TestDate` value is then normalized, a
failed normalization leaving the field `None`. -/
def primaryPass (t : List Char) : Fields :=
  { employeeID := (searchEmpP t).map stripL
  , name := (searchNameP t).map stripL
  , department := (searchDeptP t).map stripL
  , testDate :=
      match searchDateP t with
      | some v => normalizeDate (stripL v)
      | none => none
  , testType := (searchTypeP t).map stripL
  , result := (searchResP t).map stripL
  , notes := (searchNotesP t).map stripL }

/-- Python truthiness of a field value: `None` and `""` are falsy. -/
def falsyO : Option (List Char) → Bool
  | none => true
  | some [] => true
  | some (_ :: _) => false

/-- One step-3 fallback: `if not fields[k]: if m: fields[k] = value(m)`. -/
def fbSet (cur fb : Option (List Char)) : Option (List Char) :=
  if falsyO cur then
    match fb with
    | some v => some v
    | none => cur
  else cur

/-- Step 3 of `parse_fields`: label-free fallbacks, each firing only when the
field is still falsy, searched over the same corrected text. -/
def fallbackPass (f : Fields) (t : List Char) : Fields :=
  { employeeID := fbSet f.employeeID (search6 t)
  , name := fbSet f.name (searchPeterFb t)
  , department := fbSet f.department ((searchDeptFb t).map (List.map upperC))
  , testDate := fbSet f.testDate (searchDateFb t)
  , testType := fbSet f.testType ((searchTypeFb t).map capitalizePy)
  , result := fbSet f.result ((searchResFb t).map capitalizePy)
  , notes := fbSet f.notes ((searchNotesFb t).map stripL) }

/-- Steps 1-3 of `parse_fields`: the fully populated field record before
validation. -/
def extractAll (text : List Char) : Fields :=
  fallbackPass (primaryPass (applyCorrections text)) (applyCorrections text)

/-- The error `parse_fields` raises, and the storage-lookup failure mode of
`add_to_csv` (a `KeyError` from `df[column_order]`, unreachable from this
parser but part of the store model's domain). -/
inductive PipelineError where
  | incompleteData (missing : List String)
  | storeKeyError
deriving DecidableEq, Repr

/-- The required fields reported missing, in the dict iteration order of
`fields` restricted to `Name`, `TestDate`, `TestType`. -/
def requiredMissing (f : Fields) : List String :=
  (if falsyO f.name then ["Name"] else []) ++
  (if falsyO f.testDate then ["TestDate"] else []) ++
  (if falsyO f.testType then ["TestType"] else [])

/-- The message of the raised `ValueError`. -/
def errorMessage : PipelineError → String
  | .incompleteData missing =>
    "Incomplete data: Missing " ++ String.intercalate ", " missing ++ "."
  | .storeKeyError => "column lookup failed"

/-- `parse_fields`: corrections, primary extraction, fallbacks, then the
`all([...])` validation raising on any falsy required field. -/
def parseFields (text : List Char) : Except PipelineError Fields :=
  let f := extractAll text
  if falsyO f.name || falsyO f.testDate || falsyO f.testType then
    .error (.incompleteData (requiredMissing f))
  else .ok f

/-!
## The record store (`add_to_csv`) and the per-run pipeline
-/

/-- The canonical column order enforced by `add_to_csv`. -/
def columnOrder : List String :=
  ["EmployeeID", "Name", "Department", "TestDate", "TestType", "Result", "Notes"]

/-- Lookup in the key/value view of a parsed record (a pandas row built from
a dict). -/
def assocLookup (k : String) : List (String × Option (List Char)) → Option (Option (List Char))
  | [] => none
  | (k2, v) :: r => if k2 = k then some v else assocLookup k r

/-- How a cell is rendered into the CSV: `None`/`NaN` becomes empty. -/
def cellStr : Option (List Char) → String
  | none => ""
  | some cs => String.mk cs

/-- All lookups or nothing (a missing key is a `KeyError`). -/
def optMapAll : List String → (String → Option String) → Option (List String)
  | [], _ => some []
  | c :: cs, g =>
    match g c with
    | none => none
    | some v =>
      match optMapAll cs g with
      | none => none
      | some vs => some (v :: vs)

/-- The stored row of a record: the cells in canonical column order, or
`none` when some canonical column is absent from the record. -/
def toRow (r : List (String × Option (List Char))) : Option (List String) :=
  optMapAll columnOrder (fun c => (assocLookup c r).map cellStr)

/-- Total rendering of a record's row (used to state what `toRow` returns
when every column is present). -/
def canonicalRow (r : List (String × Option (List Char))) : List String :=
  columnOrder.map (fun c => cellStr ((assocLookup c r).getD none))

/-- The store file: `none` when absent; otherwise the header row followed by
the data rows. -/
def headerRow : List String := columnOrder

/-- `add_to_csv`: load the store (fresh empty table when the file is
absent), append the record's row, rewrite the canonical column order and
persist; returns the new store contents and the appended row (which the GUI
displays).  A record lacking a canonical column would make
`df[column_order]` raise — modelled as `none`. -/
def addToCsv (r : List (String × Option (List Char))) (store : Option (List (List String))) :
    Option (List (List String) × List String) :=
  match toRow r with
  | none => none
  | some row =>
    let data := match store with
      | none => []
      | some rows => rows.drop 1
    some (headerRow :: (data ++ [row]), row)

/-- The key/value view of a parsed record, in dict insertion order. -/
def fieldsToAssoc (f : Fields) : List (String × Option (List Char)) :=
  [ ("EmployeeID", f.employeeID), ("Name", f.name), ("Department", f.department)
  , ("TestDate", f.testDate), ("TestType", f.testType), ("Result", f.result)
  , ("Notes", f.notes) ]

/-- One GUI-triggered run from reconstructed text (the `try` body of
`select_image` after OCR): parse, then store; a parse failure aborts before
the store is ever touched. -/
def processText (text : List Char) (store : Option (List (List String))) :
    Option (List (List String)) × Except PipelineError (List String) :=
  match parseFields text with
  | .error e => (store, .error e)
  | .ok f =>
    match addToCsv (fieldsToAssoc f) store with
    | some (st, row) => (some st, .ok row)
    | none => (store, .error .storeKeyError)

/-- Iterated `add_to_csv` calls (for the store-append invariant): `none`
when some call raised, otherwise the final store state. -/
def runAppends : List (List (String × Option (List Char))) → Option (List (List String)) →
    Option (Option (List (List String)))
  | [], store => some store
  | r :: rest, store =>
    match addToCsv r store with
    | none => none
    | some (st, _) => runAppends rest (some st)

/-!
## Fragment reconstruction (`extract_text_from_image`, lines 24-31)

`result.sort(key=lambda x: x[0][0][1])` is Python's stable sort keyed on the
y coordinate of the bounding box's first (top-left) corner; the fragment
texts are then joined with single spaces.  A stable sort by a key is
extensionally unique, so `List.insertionSort` over `topY a ≤ topY b` (which
is stable for this reflexive-total order, proved below) models it exactly.
The recognizer's confidence value is dropped here: the source never reads it.
-/

/-- One recognized fragment: the four bounding-box corner points (top-left
first, as EasyOCR returns them) and the recognized text. -/
structure Fragment where
  p1 : Int × Int
  p2 : Int × Int
  p3 : Int × Int
  p4 : Int × Int
  txt : List Char
deriving DecidableEq, Repr

/-- The sort key `x[0][0][1]`: the y coordinate of the top-left corner. -/
def topY (f : Fragment) : Int := f.p1.2

/-- The sorting relation: ascending top-left y. -/
def fragLE (a b : Fragment) : Prop := topY a ≤ topY b

instance : DecidableRel fragLE := fun a b => inferInstanceAs (Decidable (topY a ≤ topY b))

instance : IsTotal Fragment fragLE := ⟨fun a b => Int.le_total (topY a) (topY b)⟩

instance : IsTrans Fragment fragLE := ⟨fun _ _ _ h1 h2 => le_trans h1 h2⟩

/-- The stable ascending-y sort of the recognized fragments. -/
def sortFrags (fs : List Fragment) : List Fragment := List.insertionSort fragLE fs

/-- `' '.join(...)`: join chunks with single spaces. -/
def joinSp : List (List Char) → List Char
  | [] => []
  | [x] => x
  | x :: y :: rest => x ++ ' ' :: joinSp (y :: rest)

/-- The reconstructed text blob: texts of the y-sorted fragments joined with
single spaces. -/
def reconstructText (fs : List Fragment) : List Char :=
  joinSp ((sortFrags fs).map Fragment.txt)

/-!
## Shape predicates (for stating the date-format properties)
-/

/-- The ISO 8601 date shape `YYYY-MM-DD` claimed by the specification. -/
def isIsoDateShape : List Char → Bool
  | [y1, y2, y3, y4, h1, m1, m2, h2, d1, d2] =>
    isDigitC y1 && isDigitC y2 && isDigitC y3 && isDigitC y4 &&
    decide (h1 = '-') && isDigitC m1 && isDigitC m2 && decide (h2 = '-') &&
    isDigitC d1 && isDigitC d2
  | _ => false

/-- The raw `M/D/YYYY` shape `\d{1,2}/\d{1,2}/\d{4}` (the whole string is
exactly one such date: one or two month digits, a slash, one or two day
digits, a slash, exactly four year digits and nothing after them). -/
def rawDateShape (s : List Char) : Bool :=
  let d1 := s.takeWhile isDigitC
  (decide (1 ≤ d1.length) && decide (d1.length ≤ 2)) &&
  match slashThen (s.drop d1.length) with
  | none => false
  | some r1 =>
    let d2 := r1.takeWhile isDigitC
    (decide (1 ≤ d2.length) && decide (d2.length ≤ 2)) &&
    (match slashThen (r1.drop d2.length) with
     | none => false
     | some r2 => decide (r2.length = 4) && r2.all isDigitC)

/-- Six consecutive digits start at position `i` of `l`. -/
def sixAt (l : List Char) (i : Nat) : Bool :=
  decide (((l.drop i).take 6).length = 6) && ((l.drop i).take 6).all isDigitC

/-!
## Concrete claim inputs and auxiliary definitions
-/

/-- The spec's end-to-end scenario text. -/
def c1Text : List Char :=
  "Name: Peter Brifon Department: IT TestDate: 9/14/2025 TestType: Blood Result: Negative Notes: Random test".toList

/-- Counterexample text for C2: a labeled but calendar-invalid date. -/
def c2Text : List Char := "Name: Bob TestType: Blood TestDate: 2/30/2025".toList

/-- Counterexample text for C5: an unlabeled date reachable only by the
fallback. -/
def c5Text : List Char := "Name: Bob TestType: Blood on 12/25/2024".toList

/-- Every canonical column is present in the record (otherwise
`df[column_order]` raises `KeyError`). -/
def hasAllColumns (r : List (String × Option (List Char))) : Bool :=
  columnOrder.all (fun c => (assocLookup c r).isSome)

/-- A C4 witness record listing its key/value pairs in reverse order. -/
def c4RecA : List (String × Option (List Char)) :=
  [ ("Notes", some "n1".toList), ("Result", some "Negative".toList)
  , ("TestType", some "Blood".toList), ("TestDate", some "2025-09-14".toList)
  , ("Department", some "IT".toList), ("Name", some "Ann".toList)
  , ("EmployeeID", some "911911".toList) ]

/-- A C4 witness record in canonical key order with some absent values. -/
def c4RecB : List (String × Option (List Char)) :=
  [ ("EmployeeID", none), ("Name", some "Bo".toList), ("Department", none)
  , ("TestDate", some "2025-01-02".toList), ("TestType", some "Hair".toList)
  , ("Result", none), ("Notes", none) ]

/-!
## Helper lemmas
-/

deriving instance DecidableEq for Except

set_option maxRecDepth 100000

set_option maxHeartbeats 1000000

/-- Unfolding lemma: the `EmployeeID` fallback step. -/
theorem fallbackPass_employeeID (f : Fields) (t : List Char) :
    (fallbackPass f t).employeeID = fbSet f.employeeID (search6 t) := rfl

/-- Unfolding lemma: the `Name` fallback step. -/
theorem fallbackPass_name (f : Fields) (t : List Char) :
    (fallbackPass f t).name = fbSet f.name (searchPeterFb t) := rfl

/-- Unfolding lemma: the `Department` fallback step. -/
theorem fallbackPass_department (f : Fields) (t : List Char) :
    (fallbackPass f t).department = fbSet f.department ((searchDeptFb t).map (List.map upperC)) := rfl

/-- Unfolding lemma: the `TestDate` fallback step. -/
theorem fallbackPass_testDate (f : Fields) (t : List Char) :
    (fallbackPass f t).testDate = fbSet f.testDate (searchDateFb t) := rfl

/-- Unfolding lemma: the `TestType` fallback step. -/
theorem fallbackPass_testType (f : Fields) (t : List Char) :
    (fallbackPass f t).testType = fbSet f.testType ((searchTypeFb t).map capitalizePy) := rfl

/-- Unfolding lemma: the `Result` fallback step. -/
theorem fallbackPass_result (f : Fields) (t : List Char) :
    (fallbackPass f t).result = fbSet f.result ((searchResFb t).map capitalizePy) := rfl

/-- Unfolding lemma: the `Notes` fallback step. -/
theorem fallbackPass_notes (f : Fields) (t : List Char) :
    (fallbackPass f t).notes = fbSet f.notes ((searchNotesFb t).map stripL) := rfl

/-- Unfolding lemma: the primary `TestDate` extraction with normalization. -/
theorem primaryPass_testDate (t : List Char) :
    (primaryPass t).testDate =
      match searchDateP t with
      | some v => normalizeDate (stripL v)
      | none => none := rfl

/-- Unfolding lemma: `parse_fields` as validation over the extracted record. -/
theorem parseFields_eq (text : List Char) :
    parseFields text =
      if falsyO (extractAll text).name || falsyO (extractAll text).testDate ||
          falsyO (extractAll text).testType then
        .error (.incompleteData (requiredMissing (extractAll text)))
      else .ok (extractAll text) := rfl

/-- A fallback never overwrites a truthy field. -/
theorem fbSet_of_not_falsy (cur fb : Option (List Char)) (h : falsyO cur = false) :
    fbSet cur fb = cur := by
  simp [fbSet, h]

/-- A fallback over a missing (`None`) field returns exactly the fallback
search result. -/
theorem fbSet_none (fb : Option (List Char)) : fbSet none fb = fb := by
  cases fb <;> simp [fbSet, falsyO]

/-- `some v` is falsy exactly for the empty string. -/
theorem falsyO_some (v : List Char) : falsyO (some v) = true ↔ v = [] := by
  cases v <;> simp [falsyO]

/-- Whenever a required field is falsy, the missing-fields report is
non-empty. -/
theorem requiredMissing_ne_nil (f : Fields)
    (h : (falsyO f.name || falsyO f.testDate || falsyO f.testType) = true) :
    requiredMissing f ≠ [] := by
  unfold requiredMissing
  cases hn : falsyO f.name <;> cases hd : falsyO f.testDate <;>
    cases ht : falsyO f.testType <;> simp_all

/-- The missing-fields report names exactly the falsy required fields. -/
theorem requiredMissing_mem (f : Fields) (k : String) :
    k ∈ requiredMissing f ↔
      (k = "Name" ∧ falsyO f.name = true) ∨ (k = "TestDate" ∧ falsyO f.testDate = true) ∨
      (k = "TestType" ∧ falsyO f.testType = true) := by
  unfold requiredMissing
  cases hn : falsyO f.name <;> cases hd : falsyO f.testDate <;>
    cases ht : falsyO f.testType <;> simp

/-!
## C6 — stage priority: a truthy field is never overwritten
-/

/-- C6: the extraction stages run primary-then-fallback over the corrected
text, and a field holding a truthy (non-`None`, non-empty) value after the
primary pass is returned unchanged by the fallback pass — for each of the
seven fields. -/
theorem stages_never_overwrite (text : List Char) :
    (falsyO (primaryPass (applyCorrections text)).employeeID = false →
      (extractAll text).employeeID = (primaryPass (applyCorrections text)).employeeID) ∧
    (falsyO (primaryPass (applyCorrections text)).name = false →
      (extractAll text).name = (primaryPass (applyCorrections text)).name) ∧
    (falsyO (primaryPass (applyCorrections text)).department = false →
      (extractAll text).department = (primaryPass (applyCorrections text)).department) ∧
    (falsyO (primaryPass (applyCorrections text)).testDate = false →
      (extractAll text).testDate = (primaryPass (applyCorrections text)).testDate) ∧
    (falsyO (primaryPass (applyCorrections text)).testType = false →
      (extractAll text).testType = (primaryPass (applyCorrections text)).testType) ∧
    (falsyO (primaryPass (applyCorrections text)).result = false →
      (extractAll text).result = (primaryPass (applyCorrections text)).result) ∧
    (falsyO (primaryPass (applyCorrections text)).notes = false →
      (extractAll text).notes = (primaryPass (applyCorrections text)).notes) := by
  refine ⟨fun h => ?_, fun h => ?_, fun h => ?_, fun h => ?_, fun h => ?_, fun h => ?_, fun h => ?_⟩
  · rw [extractAll, fallbackPass_employeeID, fbSet_of_not_falsy _ _ h]
  · rw [extractAll, fallbackPass_name, fbSet_of_not_falsy _ _ h]
  · rw [extractAll, fallbackPass_department, fbSet_of_not_falsy _ _ h]
  · rw [extractAll, fallbackPass_testDate, fbSet_of_not_falsy _ _ h]
  · rw [extractAll, fallbackPass_testType, fbSet_of_not_falsy _ _ h]
  · rw [extractAll, fallbackPass_result, fbSet_of_not_falsy _ _ h]
  · rw [extractAll, fallbackPass_notes, fbSet_of_not_falsy _ _ h]

/-- Witness for C6 at a concrete text: the primary pass sets `Name` to
`"Alice"` (truthy), and the fallback pass leaves it unchanged. -/
theorem stages_never_overwrite_w :
    (extractAll "Name: Alice".toList).name = (primaryPass (applyCorrections "Name: Alice".toList)).name :=
  (stages_never_overwrite "Name: Alice".toList).2.1 (by decide)

/-!
## C8 — totality of `parse_fields` up to its declared validation error
-/

/-- C8: on every input text, `parse_fields` either returns a record whose
`Name`, `TestDate` and `TestType` are all truthy, or fails with precisely
the incomplete-data `ValueError` carrying a non-empty list of missing
required fields; no other failure is possible. -/
theorem parse_total_or_incomplete (text : List Char) :
    (∃ r, parseFields text = .ok r ∧ falsyO r.name = false ∧ falsyO r.testDate = false ∧
      falsyO r.testType = false) ∨
    (∃ miss, parseFields text = .error (.incompleteData miss) ∧ miss ≠ [] ∧
      errorMessage (.incompleteData miss) =
        "Incomplete data: Missing " ++ String.intercalate ", " miss ++ ".") := by
  by_cases h : (falsyO (extractAll text).name || falsyO (extractAll text).testDate ||
      falsyO (extractAll text).testType) = true
  · right
    refine ⟨requiredMissing (extractAll text), ?_, requiredMissing_ne_nil _ h, rfl⟩
    rw [parseFields_eq, if_pos h]
  · left
    have h' := h
    simp only [Bool.or_eq_true, not_or, Bool.not_eq_true] at h'
    exact ⟨extractAll text, by rw [parseFields_eq, if_neg h], h'.1.1, h'.1.2, h'.2⟩

/-!
## C3 — validation failure names the missing fields and blocks storage
-/

/-- C3: whenever some required field is still falsy after all extraction
stages, `parse_fields` raises the incomplete-data error whose list names
exactly the missing required fields (in `Name`, `TestDate`, `TestType`
order), and the per-run pipeline returns the store unchanged — `add_to_csv`
is never reached. -/
theorem validation_blocks_storage (text : List Char) (store : Option (List (List String)))
    (h : (falsyO (extractAll text).name || falsyO (extractAll text).testDate ||
      falsyO (extractAll text).testType) = true) :
    parseFields text = .error (.incompleteData (requiredMissing (extractAll text))) ∧
    (∀ k, k ∈ requiredMissing (extractAll text) ↔
      (k = "Name" ∧ falsyO (extractAll text).name = true) ∨
      (k = "TestDate" ∧ falsyO (extractAll text).testDate = true) ∨
      (k = "TestType" ∧ falsyO (extractAll text).testType = true)) ∧
    processText text store = (store, .error (.incompleteData (requiredMissing (extractAll text)))) := by
  have hp : parseFields text = .error (.incompleteData (requiredMissing (extractAll text))) := by
    rw [parseFields_eq, if_pos h]
  refine ⟨hp, fun k => requiredMissing_mem _ k, ?_⟩
  unfold processText
  rw [hp]

/-- Witness for C3 at the spec's failure scenario `"Department: IT"`: all
three required fields are reported missing and a pre-existing store value is
returned untouched. -/
theorem validation_blocks_storage_w :
    parseFields "Department: IT".toList =
      .error (.incompleteData ["Name", "TestDate", "TestType"]) ∧
    processText "Department: IT".toList (some [["stale"]]) =
      (some [["stale"]], .error (.incompleteData ["Name", "TestDate", "TestType"])) := by
  have h := validation_blocks_storage "Department: IT".toList (some [["stale"]]) (by decide)
  have e : requiredMissing (extractAll "Department: IT".toList) = ["Name", "TestDate", "TestType"] := by
    decide
  rw [e] at h
  exact ⟨h.1, h.2.2⟩

/-!
## C1 — the end-to-end sample blob
-/


/-- Counterexample to C1: on the spec's sample blob the greedy value class
`[A-Za-z\s]+` of the `Name` and `Department` patterns also swallows the
following label word, so `parse_fields` returns
`Name = "Peter Brifon Department"` (not `"Peter Brifon"`) and
`Department = "IT TestDate"` (not `"IT"`). -/
theorem c1_name_department_grab_following_label :
    (parseFields c1Text).map Fields.name = .ok (some "Peter Brifon Department".toList) ∧
    (parseFields c1Text).map Fields.name ≠ .ok (some "Peter Brifon".toList) ∧
    (parseFields c1Text).map Fields.department = .ok (some "IT TestDate".toList) ∧
    (parseFields c1Text).map Fields.department ≠ .ok (some "IT".toList) :=
  ⟨by decide, by decide, by decide, by decide⟩

/-- C1 as the code actually behaves: the sample blob parses to the record
with `Name = "Peter Brifon Department"`, `Department = "IT TestDate"`,
`TestDate = "2025-09-14"`, `TestType = "Blood"`, `Result = "Negative"`,
`Notes = "Random test"` (and no `EmployeeID`), and the run appends exactly
that row to a freshly created store. -/
theorem c1_end_to_end_actual :
    parseFields c1Text = .ok
      { employeeID := none
      , name := some "Peter Brifon Department".toList
      , department := some "IT TestDate".toList
      , testDate := some "2025-09-14".toList
      , testType := some "Blood".toList
      , result := some "Negative".toList
      , notes := some "Random test".toList } ∧
    processText c1Text none =
      (some [headerRow,
        ["", "Peter Brifon Department", "IT TestDate", "2025-09-14", "Blood", "Negative", "Random test"]],
       .ok ["", "Peter Brifon Department", "IT TestDate", "2025-09-14", "Blood", "Negative", "Random test"]) :=
  ⟨by decide, by decide⟩

/-!
## C10 — vocabulary-fallback case normalization vs. primary casing
-/

/-- C10: a vocabulary word found by the labeled primary pattern keeps its
input casing (`TestType: URINE` stores `URINE`, `Result: POSITIVE` stores
`POSITIVE`), while the same word found by the label-free vocabulary fallback
is `capitalize()`d (`URINE` ⇒ `Urine`, `POSITIVE` ⇒ `Positive`) — so one
word can be stored with different casing depending on the matching stage. -/
theorem vocab_casing_depends_on_stage :
    (parseFields "Name: Bob TestDate: 1/2/2025 TestType: URINE".toList).map Fields.testType =
      .ok (some "URINE".toList) ∧
    (parseFields "Name: Bob TestDate: 1/2/2025 Type URINE".toList).map Fields.testType =
      .ok (some "Urine".toList) ∧
    (parseFields "Name: Bob TestDate: 1/2/2025 TestType: Blood Result: POSITIVE".toList).map Fields.result =
      .ok (some "POSITIVE".toList) ∧
    (parseFields "Name: Bob TestDate: 1/2/2025 TestType: Blood POSITIVE".toList).map Fields.result =
      .ok (some "Positive".toList) :=
  ⟨by decide, by decide, by decide, by decide⟩

/-!
## C2 — invalid dates: cleared by the primary stage, but recoverable by the fallback
-/


/-- Counterexample to C2: on `c2Text` the primary stage extracts the date
value `2/30/2025`, whose normalization fails (February 30th), yet the final
`TestDate` is the non-empty raw string `"2/30/2025"`: the label-free date
fallback reinstates the very value the primary stage cleared, so the final
field is not empty. -/
theorem testdate_fallback_reinstates_invalid :
    searchDateP (applyCorrections c2Text) = some "2/30/2025".toList ∧
    normalizeDate (stripL "2/30/2025".toList) = none ∧
    parseFields c2Text = .ok
      { employeeID := none
      , name := some "Bob TestType".toList
      , department := none
      , testDate := some "2/30/2025".toList
      , testType := some "Blood".toList
      , result := none
      , notes := none } :=
  ⟨by decide, by decide, by decide⟩

/-- C2 as the code actually behaves: when the primary `TestDate` extraction
yields a value whose normalization fails, no date-parsing exception escapes
— the primary stage just leaves `TestDate` as `None` — and the final
`TestDate` is then exactly whatever the label-free fallback search finds
(possibly that same invalid raw date, possibly nothing). -/
theorem testdate_primary_clears_on_invalid (text v : List Char)
    (h1 : searchDateP (applyCorrections text) = some v)
    (h2 : normalizeDate (stripL v) = none) :
    (primaryPass (applyCorrections text)).testDate = none ∧
    (extractAll text).testDate = searchDateFb (applyCorrections text) := by
  have hp : (primaryPass (applyCorrections text)).testDate = none := by
    rw [primaryPass_testDate, h1]
    exact h2
  refine ⟨hp, ?_⟩
  rw [extractAll, fallbackPass_testDate, hp, fbSet_none]

/-- Witness for C2's theorem at the concrete text `"TestDate: 2/30/2025"`:
the primary stage clears the invalid date and the fallback then supplies the
raw string. -/
theorem testdate_primary_clears_on_invalid_w :
    (primaryPass (applyCorrections "TestDate: 2/30/2025".toList)).testDate = none ∧
    (extractAll "TestDate: 2/30/2025".toList).testDate = some "2/30/2025".toList := by
  have h := testdate_primary_clears_on_invalid "TestDate: 2/30/2025".toList "2/30/2025".toList
    (by decide) (by decide)
  exact ⟨h.1, h.2.trans (by decide)⟩

/-!
## C7 — fragment reconstruction: stable ascending-y sort, space-joined
-/

/-- Inserting a fragment with `orderedInsert` places it before exactly the
suffix of fragments with strictly larger keys, so filtering by any fixed key
value keeps it in front of its key-mates and leaves everything else alone. -/
theorem filter_orderedInsert_key (a : Fragment) (l : List Fragment) (y : Int) :
    (List.orderedInsert fragLE a l).filter (fun b => decide (topY b = y)) =
      if topY a = y then a :: l.filter (fun b => decide (topY b = y))
      else l.filter (fun b => decide (topY b = y)) := by
  induction l with
  | nil =>
    by_cases h : topY a = y <;> simp [List.orderedInsert, h]
  | cons b t ih =>
    by_cases hab : fragLE a b
    · by_cases ha : topY a = y <;> by_cases hb : topY b = y <;>
        simp [List.orderedInsert, hab, ha, hb]
    · have hba : topY b < topY a := by
        simp only [fragLE, not_le] at hab
        exact hab
      by_cases ha : topY a = y <;> by_cases hb : topY b = y <;>
        simp [List.orderedInsert, hab, ha, hb, ih] <;> omega

/-- Stability of the modelled sort: for every key value, the sorted list
carries the fragments with that key in their original relative order. -/
theorem filter_insertionSort_key (l : List Fragment) (y : Int) :
    (List.insertionSort fragLE l).filter (fun b => decide (topY b = y)) =
      l.filter (fun b => decide (topY b = y)) := by
  induction l with
  | nil => rfl
  | cons a t ih =>
    simp only [List.insertionSort]
    rw [filter_orderedInsert_key]
    by_cases h : topY a = y <;> simp [List.filter_cons, h, ih]

/-- C7: reconstruction permutes the recognized fragments into ascending
order of the bounding box's top-left y coordinate; the sort is stable (for
every key value, equal-key fragments keep their original relative order);
and on the spec's example — top-left y coordinates [50, 10, 30] — the
space-joined output puts the y=10 text first, then y=30, then y=50. -/
theorem reconstruction_sorted_stable_joined :
    (∀ fs : List Fragment, (sortFrags fs).Perm fs ∧ List.Sorted fragLE (sortFrags fs)) ∧
    (∀ (fs : List Fragment) (y : Int),
      (sortFrags fs).filter (fun b => decide (topY b = y)) =
        fs.filter (fun b => decide (topY b = y))) ∧
    reconstructText
      [ ⟨(0, 50), (9, 50), (9, 59), (0, 59), "A".toList⟩
      , ⟨(0, 10), (9, 10), (9, 19), (0, 19), "B".toList⟩
      , ⟨(0, 30), (9, 30), (9, 39), (0, 39), "C".toList⟩ ] = "B C A".toList := by
  refine ⟨fun fs => ⟨List.perm_insertionSort _ _, List.sorted_insertionSort _ _⟩,
    fun fs y => filter_insertionSort_key fs y, by decide⟩

/-!
## C4 — the store after N appends
-/


/-- `optMapAll` is plain `map` when every lookup succeeds. -/
theorem optMapAll_eq_map (cols : List String) (g : String → Option String) (g' : String → String)
    (h : ∀ c ∈ cols, g c = some (g' c)) :
    optMapAll cols g = some (cols.map g') := by
  induction cols with
  | nil => rfl
  | cons c cs ih =>
    rw [optMapAll, h c (by simp), ih (fun c' hc' => h c' (by simp [hc']))]
    rfl

/-- With all columns present, `toRow` renders exactly the canonical row. -/
theorem toRow_eq_canonical (r : List (String × Option (List Char))) (h : hasAllColumns r = true) :
    toRow r = some (canonicalRow r) := by
  rw [toRow, canonicalRow]
  refine optMapAll_eq_map _ _ _ (fun c hc => ?_)
  have hs : (assocLookup c r).isSome = true := by
    have := List.all_eq_true.mp h c hc
    simpa using this
  obtain ⟨v, hv⟩ := Option.isSome_iff_exists.mp hs
  rw [hv]
  rfl

/-- Iterating `add_to_csv` from a store that already has its header prepends
nothing and appends one canonical row per record, in order. -/
theorem runAppends_from_header (rs : List (List (String × Option (List Char))))
    (data : List (List String)) (hkeys : ∀ r ∈ rs, hasAllColumns r = true) :
    runAppends rs (some (headerRow :: data)) =
      some (some (headerRow :: (data ++ rs.map canonicalRow))) := by
  induction rs generalizing data with
  | nil => simp [runAppends]
  | cons r rest ih =>
    have hr := toRow_eq_canonical r (hkeys r (by simp))
    rw [runAppends, addToCsv, hr]
    have step := ih (data ++ [canonicalRow r]) (fun r' h' => hkeys r' (by simp [h']))
    simpa [List.append_assoc] using step

/-- Counterexample to C4 at `N = 0`: zero calls starting from an absent
store leave the store absent — it does not hold a header row (the file is
only created by the first write). -/
theorem store_absent_after_zero_appends :
    runAppends [] none = some none ∧
    (none : Option (List (List String))) ≠ some [headerRow] :=
  ⟨rfl, by decide⟩

/-- C4 for `N ≥ 1`: after `N` successful `add_to_csv` calls starting from an
absent store, the store holds the header row followed by exactly the `N`
appended records' rows, in append order, each row rendered in the canonical
column order via lookup by column name — independent of the order in which
the record's key/value pairs were populated. -/
theorem store_append_schema_stable (rs : List (List (String × Option (List Char))))
    (hne : rs ≠ []) (hkeys : ∀ r ∈ rs, hasAllColumns r = true) :
    runAppends rs none = some (some (headerRow :: rs.map canonicalRow)) := by
  cases rs with
  | nil => exact absurd rfl hne
  | cons r rest =>
    have hr := toRow_eq_canonical r (hkeys r (by simp))
    rw [runAppends, addToCsv, hr]
    have step := runAppends_from_header rest [canonicalRow r]
      (fun r' h' => hkeys r' (by simp [h']))
    simpa using step


/-- Witness for C4 with two concrete records, the first one listing its
key/value pairs in reverse order: both rows come out in the canonical
column order, after the header, in append order. -/
theorem store_append_schema_stable_w :
    runAppends [c4RecA, c4RecB] none =
      some (some
        [ headerRow
        , ["911911", "Ann", "IT", "2025-09-14", "Blood", "Negative", "n1"]
        , ["", "Bo", "", "2025-01-02", "Hair", "", ""] ]) := by
  have h := store_append_schema_stable [c4RecA, c4RecB] (by simp) (by decide)
  exact h.trans (by decide)

/-!
## C5 — shape of every persisted `TestDate`
-/

/-- A successful search means the matcher succeeded at some suffix. -/
theorem searchAux_ex (m : List Char → Option (List Char)) (l v : List Char)
    (h : searchAux m l = some v) : ∃ s, m s = some v := by
  induction l with
  | nil => exact ⟨[], h⟩
  | cons c cs ih =>
    rw [searchAux] at h
    cases hm : m (c :: cs) with
    | some w => rw [hm] at h; exact ⟨c :: cs, hm.trans h⟩
    | none => rw [hm] at h; exact ih h

/-- Every character kept by `takeWhile` satisfies the predicate. -/
theorem all_takeWhile_self (p : Char → Bool) (l : List Char) :
    (l.takeWhile p).all p = true := by
  induction l with
  | nil => rfl
  | cons c cs ih =>
    rw [List.takeWhile_cons]
    cases hc : p c with
    | true => simpa [hc] using ih
    | false => rfl

/-- `take` preserves `all`. -/
theorem all_take (p : Char → Bool) (l : List Char) (n : Nat) (h : l.all p = true) :
    (l.take n).all p = true := by
  rw [List.all_eq_true] at *
  exact fun x hx => h x (List.mem_of_mem_take hx)

/-- `takeWhile` stops exactly at the first failing character. -/
theorem takeWhile_append_of_all (p : Char → Bool) (a : List Char) (c : Char) (r : List Char)
    (ha : a.all p = true) (hc : p c = false) :
    (a ++ c :: r).takeWhile p = a := by
  induction a with
  | nil => simp [List.takeWhile_cons, hc]
  | cons x xs ih =>
    rw [List.all_cons, Bool.and_eq_true] at ha
    simp [List.takeWhile_cons, ha.1, ih ha.2]

/-- The `\d{1,2}` munch is made of digits. -/
theorem takeDigits12_all (l : List Char) : (takeDigits12 l).all isDigitC = true :=
  all_take _ _ _ (all_takeWhile_self _ l)

/-- The `\d{1,2}` munch has at most two characters. -/
theorem takeDigits12_le_two (l : List Char) : (takeDigits12 l).length ≤ 2 := by
  calc (takeDigits12 l).length ≤ 2 := by
        rw [takeDigits12, List.length_take]
        exact min_le_left _ _

/-- Inversion for `slashThen`. -/
theorem slashThen_eq_some (r s : List Char) (h : slashThen r = some s) : r = '/' :: s := by
  cases r with
  | nil => exact absurd h (by simp [slashThen])
  | cons c cs =>
    rw [slashThen] at h
    by_cases hc : c = '/'
    · rw [if_pos hc] at h
      rw [hc, Option.some_inj.mp h]
    · rw [if_neg hc] at h
      exact absurd h (by simp)

/-- `slashThen` immediately after a slash succeeds. -/
theorem slashThen_cons (s : List Char) : slashThen ('/' :: s) = some s := by
  rw [slashThen, if_pos rfl]

/-- Anything `matchDateAt` accepts has the raw `M/D/YYYY` shape. -/
theorem matchDateAt_shape (l m : List Char) (h : matchDateAt l = some m) :
    rawDateShape m = true := by
  rw [matchDateAt] at h
  split at h
  · exact absurd h (by simp)
  case isFalse h1 =>
  obtain ⟨r1, hr1, h⟩ := Option.bind_eq_some.mp h
  split at h
  · exact absurd h (by simp)
  case isFalse h2 =>
  obtain ⟨r2, hr2, h⟩ := Option.bind_eq_some.mp h
  split at h
  case isFalse => exact absurd h (by simp)
  case isTrue hy =>
  have hm : m = takeDigits12 l ++ '/' :: (takeDigits12 r1 ++ '/' :: r2.take 4) :=
    (Option.some_inj.mp h).symm
  subst hm
  rw [Bool.and_eq_true, decide_eq_true_iff] at hy
  have len1 : 1 ≤ (takeDigits12 l).length := by
    have hne : takeDigits12 l ≠ [] := by
      intro he
      rw [List.isEmpty_iff] at h1
      exact h1 he
    exact List.length_pos.mpr hne
  have len2 : 1 ≤ (takeDigits12 r1).length := by
    have hne : takeDigits12 r1 ≠ [] := by
      intro he
      rw [List.isEmpty_iff] at h2
      exact h2 he
    exact List.length_pos.mpr hne
  have e1 : (takeDigits12 l ++ '/' :: (takeDigits12 r1 ++ '/' :: r2.take 4)).takeWhile isDigitC =
      takeDigits12 l :=
    takeWhile_append_of_all _ _ _ _ (takeDigits12_all l) (by decide)
  have e2 : (takeDigits12 r1 ++ '/' :: r2.take 4).takeWhile isDigitC = takeDigits12 r1 :=
    takeWhile_append_of_all _ _ _ _ (takeDigits12_all r1) (by decide)
  rw [rawDateShape]
  simp only [e1, List.drop_left, slashThen_cons, e2]
  simp [len1, len2, takeDigits12_le_two l, takeDigits12_le_two r1, hy.1, hy.2]

/-- Decimal digit characters are digits. -/
theorem digitChar_isDigit : ∀ d, d < 10 → isDigitC (digitChar d) = true := by decide

/-- Every character produced by the decimal rendering is a digit. -/
theorem natDigitsAux_all (f : Nat) : ∀ n, (natDigitsAux f n).all isDigitC = true := by
  induction f with
  | zero => intro n; rfl
  | succ f ih =>
    intro n
    cases n with
    | zero => rfl
    | succ k =>
      show (natDigitsAux f ((k + 1) / 10) ++ [digitChar ((k + 1) % 10)]).all isDigitC = true
      rw [List.all_append, ih ((k + 1) / 10)]
      have hd : isDigitC (digitChar ((k + 1) % 10)) = true :=
        digitChar_isDigit _ (Nat.mod_lt _ (by norm_num))
      simp [hd]

/-- The decimal rendering of `n < 10^w` has at most `w` digits. -/
theorem natDigitsAux_len (f : Nat) : ∀ n w, n < 10 ^ w → (natDigitsAux f n).length ≤ w := by
  induction f with
  | zero => intro n w _; simp [natDigitsAux]
  | succ f ih =>
    intro n w hn
    cases n with
    | zero => simp [natDigitsAux]
    | succ k =>
      cases w with
      | zero => simp at hn
      | succ w =>
        show (natDigitsAux f ((k + 1) / 10) ++ [digitChar ((k + 1) % 10)]).length ≤ w + 1
        rw [List.length_append]
        have hdiv : (k + 1) / 10 < 10 ^ w := by
          rw [Nat.div_lt_iff_lt_mul (by norm_num : 0 < 10)]
          calc k + 1 < 10 ^ (w + 1) := hn
            _ = 10 ^ w * 10 := by ring
        have := ih ((k + 1) / 10) w hdiv
        simp only [List.length_singleton]
        omega

/-- Padded formatting of `n < 10^w` (with `1 ≤ w`) has exactly width `w`. -/
theorem fmtPadNat_len (w n : Nat) (hw : 1 ≤ w) (h : n < 10 ^ w) :
    (fmtPadNat w n).length = w := by
  rw [fmtPadNat]
  by_cases h0 : n = 0
  · simp [h0]
    omega
  · have hlen := natDigitsAux_len (n + 1) n w h
    simp [h0, List.length_replicate]
    omega

/-- Padded formatting yields only digit characters. -/
theorem fmtPadNat_all (w n : Nat) : (fmtPadNat w n).all isDigitC = true := by
  have hrep : ∀ k : Nat, (List.replicate k '0').all isDigitC = true := by
    intro k
    rw [List.all_eq_true]
    intro x hx
    rw [List.eq_of_mem_replicate hx]
    decide
  simp only [fmtPadNat, List.all_append]
  by_cases h0 : n = 0
  · rw [if_pos h0, hrep]
    decide
  · rw [if_neg h0, hrep, natDigitsAux_all]
    decide

/-- On non-negative integers the padded `int` formatting is the `Nat` one. -/
theorem fmtPadInt_nonneg (w : Nat) (n : Int) (h : 0 ≤ n) :
    fmtPadInt w n = fmtPadNat w n.toNat := by
  rw [fmtPadInt, if_neg (by omega)]

/-- Assembling digit blocks of widths 4, 2, 2 with dashes gives the ISO
`YYYY-MM-DD` shape. -/
theorem iso_of_parts (a b c : List Char) (ha : a.length = 4) (hb : b.length = 2)
    (hc : c.length = 2) (da : a.all isDigitC = true) (db : b.all isDigitC = true)
    (dc : c.all isDigitC = true) :
    isIsoDateShape (a ++ '-' :: (b ++ '-' :: c)) = true := by
  obtain ⟨a1, a2, a3, a4, rfl⟩ : ∃ x1 x2 x3 x4, a = [x1, x2, x3, x4] := by
    rcases a with _ | ⟨x1, _ | ⟨x2, _ | ⟨x3, _ | ⟨x4, _ | ⟨x5, t⟩⟩⟩⟩⟩
    · exact absurd ha (by simp)
    · exact absurd ha (by simp)
    · exact absurd ha (by simp)
    · exact absurd ha (by simp)
    · exact ⟨x1, x2, x3, x4, rfl⟩
    · exact absurd ha (by simp)
  obtain ⟨b1, b2, rfl⟩ : ∃ y1 y2, b = [y1, y2] := by
    rcases b with _ | ⟨y1, _ | ⟨y2, _ | ⟨y3, t⟩⟩⟩
    · exact absurd hb (by simp)
    · exact absurd hb (by simp)
    · exact ⟨y1, y2, rfl⟩
    · exact absurd hb (by simp)
  obtain ⟨c1, c2, rfl⟩ : ∃ z1 z2, c = [z1, z2] := by
    rcases c with _ | ⟨z1, _ | ⟨z2, _ | ⟨z3, t⟩⟩⟩
    · exact absurd hc (by simp)
    · exact absurd hc (by simp)
    · exact ⟨z1, z2, rfl⟩
    · exact absurd hc (by simp)
  simp [List.all_eq_true] at da db dc
  simp [isIsoDateShape, da.1, da.2.1, da.2.2.1, da.2.2.2, db.1, db.2, dc.1, dc.2]

/-- The month never has more than 31 days. -/
theorem daysInMonth_le (y m : Int) : daysInMonth y m ≤ 31 := by
  rw [daysInMonth]
  split_ifs <;> omega

/-- A successful date normalization always returns an ISO-shaped
`YYYY-MM-DD` string. -/
theorem normalizeDate_iso (v out : List Char) (h : normalizeDate v = some out) :
    isIsoDateShape out = true := by
  rw [normalizeDate] at h
  split at h
  case h_2 => exact absurd h (by simp)
  case h_1 m d y heq =>
  split at h
  case isFalse => exact absurd h (by simp)
  case isTrue hv =>
  have hout : out = fmtPadInt 4 y ++ '-' :: (fmtPadInt 2 m ++ '-' :: fmtPadInt 2 d) :=
    (Option.some_inj.mp h).symm
  subst hout
  simp only [validYMD, Bool.and_eq_true, decide_eq_true_iff] at hv
  obtain ⟨⟨⟨⟨⟨hy1, hy2⟩, hm1⟩, hm2⟩, hd1⟩, hd2⟩ := hv
  have hdm := daysInMonth_le y m
  rw [fmtPadInt_nonneg 4 y (by omega), fmtPadInt_nonneg 2 m (by omega),
    fmtPadInt_nonneg 2 d (by omega)]
  refine iso_of_parts _ _ _ ?_ ?_ ?_ (fmtPadNat_all _ _) (fmtPadNat_all _ _) (fmtPadNat_all _ _)
  · exact fmtPadNat_len 4 y.toNat (by norm_num) (by norm_num; omega)
  · exact fmtPadNat_len 2 m.toNat (by norm_num) (by norm_num; omega)
  · exact fmtPadNat_len 2 d.toNat (by norm_num) (by norm_num; omega)

/-- An ISO-shaped string is non-empty. -/
theorem iso_ne_nil (s : List Char) (h : isIsoDateShape s = true) : s ≠ [] := by
  intro he
  subst he
  exact absurd h (by decide)

/-- Inversion of a successful parse: the record is the extracted one and no
required field is falsy. -/
theorem parseFields_ok_inv (text : List Char) (r : Fields) (h : parseFields text = .ok r) :
    r = extractAll text ∧
    (falsyO (extractAll text).name || falsyO (extractAll text).testDate ||
      falsyO (extractAll text).testType) = false := by
  rw [parseFields_eq] at h
  split at h
  case isTrue => exact absurd h (by simp)
  case isFalse hc =>
  exact ⟨(Except.ok.injEq _ _ |>.mp h).symm, Bool.not_eq_true _ |>.mp hc⟩


/-- Counterexample to C5: `parse_fields` can return (and hence persist) a
`TestDate` that is the raw `M/D/YYYY` fallback capture `"12/25/2024"`, which
is not an ISO `YYYY-MM-DD` string. -/
theorem testdate_not_always_iso :
    (parseFields c5Text).map Fields.testDate = .ok (some "12/25/2024".toList) ∧
    isIsoDateShape "12/25/2024".toList = false :=
  ⟨by decide, by decide⟩

/-- C5 as the code actually behaves: every `TestDate` in a record returned
by `parse_fields` is either an ISO-shaped `YYYY-MM-DD` string (primary
labeled extraction, normalized and validated) or a raw `M/D/YYYY`-shaped
string (label-free fallback capture). -/
theorem testdate_iso_or_raw (text : List Char) (r : Fields) (v : List Char)
    (hok : parseFields text = .ok r) (hv : r.testDate = some v) :
    isIsoDateShape v = true ∨ rawDateShape v = true := by
  obtain ⟨hr, _⟩ := parseFields_ok_inv text r hok
  subst hr
  rw [extractAll, fallbackPass_testDate] at hv
  by_cases hp : falsyO (primaryPass (applyCorrections text)).testDate = true
  · unfold fbSet at hv
    rw [if_pos hp] at hv
    cases hf : searchDateFb (applyCorrections text) with
    | some w =>
      rw [hf] at hv
      have hw : w = v := Option.some_inj.mp hv
      subst hw
      right
      rw [searchDateFb] at hf
      obtain ⟨s, hs⟩ := searchAux_ex _ _ _ hf
      exact matchDateAt_shape s w hs
    | none =>
      rw [hf] at hv
      rw [primaryPass_testDate] at hv hp
      cases hs : searchDateP (applyCorrections text) with
      | none =>
        rw [hs] at hv
        exact absurd hv (by simp)
      | some w =>
        simp only [hs] at hv hp
        have hiso := normalizeDate_iso _ _ hv
        rw [hv] at hp
        have hv0 : v = [] := (falsyO_some v).mp hp
        subst hv0
        exact absurd hiso (by decide)
  · unfold fbSet at hv
    rw [if_neg hp] at hv
    left
    rw [primaryPass_testDate] at hv
    cases hs : searchDateP (applyCorrections text) with
    | none =>
      rw [hs] at hv
      exact absurd hv (by simp)
    | some w =>
      simp only [hs] at hv
      exact normalizeDate_iso _ _ hv

/-- Witness for C5's theorem, applied to the concrete parse of `c5Text`
whose `TestDate` is the raw fallback capture. -/
theorem testdate_iso_or_raw_w :
    isIsoDateShape "12/25/2024".toList = true ∨ rawDateShape "12/25/2024".toList = true :=
  testdate_iso_or_raw c5Text
    { employeeID := none
    , name := some "Bob TestType".toList
    , department := none
    , testDate := some "12/25/2024".toList
    , testType := some "Blood".toList
    , result := none
    , notes := none } "12/25/2024".toList (by decide) (by decide)

/-!
## C9 — `\d{6}` without anchors: truncation of longer digit runs
-/

/-- Unfolding lemma: the primary `EmployeeID` extraction. -/
theorem primaryPass_employeeID (t : List Char) :
    (primaryPass t).employeeID = (searchEmpP t).map stripL := rfl

/-- Shifting a six-digit window across a cons cell. -/
theorem sixAt_cons_succ (c : Char) (cs : List Char) (k : Nat) :
    sixAt (c :: cs) (k + 1) = sixAt cs k := by
  rw [sixAt, sixAt, List.drop_succ_cons]

/-- The `\d{6}` fallback search returns the window at the leftmost position
where six consecutive digits start. -/
theorem search6_leftmost (l : List Char) : ∀ i, sixAt l i = true →
    (∀ j, j < i → sixAt l j = false) → search6 l = some ((l.drop i).take 6) := by
  induction l with
  | nil =>
    intro i h6 _
    rw [sixAt] at h6
    simp at h6
  | cons c cs ih =>
    intro i h6 hmin
    cases i with
    | zero =>
      rw [sixAt, List.drop_zero, Bool.and_eq_true, decide_eq_true_iff] at h6
      have hcond : (decide (((c :: cs).take 6).length = 6) && ((c :: cs).take 6).all isDigitC) = true := by
        rw [Bool.and_eq_true, decide_eq_true_iff]
        exact h6
      have hm : match6At (c :: cs) = some ((c :: cs).take 6) := by
        simp only [match6At]
        rw [if_pos hcond]
      rw [search6, searchAux, hm, List.drop_zero]
    | succ k =>
      have h0 := hmin 0 (Nat.succ_pos k)
      rw [sixAt, List.drop_zero] at h0
      have hm : match6At (c :: cs) = none := by
        simp only [match6At]
        rw [if_neg]
        rw [h0]
        simp
      rw [search6, searchAux, hm, List.drop_succ_cons]
      rw [sixAt_cons_succ] at h6
      refine ih k h6 (fun j hj => ?_)
      have := hmin (j + 1) (Nat.succ_lt_succ hj)
      rw [sixAt_cons_succ] at this
      exact this

/-- Counterexample to C9: in `"12345678 EmployeeID: 654321"` the earliest
(and only) run of six or more digits is `"12345678"`, starting at position 0
and longer than six digits — yet `EmployeeID` is set to `"654321"` by the
labeled primary pattern, not to the run's first six digits `"123456"`. -/
theorem empid_primary_overrides_earliest_run :
    (("12345678 EmployeeID: 654321".toList).take 8).all isDigitC = true ∧
    (("12345678 EmployeeID: 654321".toList).drop 8).head? = some ' ' ∧
    sixAt ("12345678 EmployeeID: 654321".toList) 0 = true ∧
    (extractAll "12345678 EmployeeID: 654321".toList).employeeID = some "654321".toList ∧
    some "654321".toList ≠ some "123456".toList :=
  ⟨by decide, by decide, by decide, by decide, by decide⟩

/-- C9 as the code actually behaves: when the labeled primary `EmployeeID`
pattern finds no match, and six consecutive digits first occur at position
`i` of the corrected text with a seventh digit right after the window (a run
longer than six digits), `EmployeeID` is set to the first six digits of that
run — which indeed starts at `i`: the character before position `i`, when
it exists, is not a digit. -/
theorem empid_fallback_first_six (text : List Char) (i : Nat)
    (hp : searchEmpP (applyCorrections text) = none)
    (h6 : sixAt (applyCorrections text) i = true)
    (hmin : ∀ j, j < i → sixAt (applyCorrections text) j = false)
    (hlong : ∃ c, ((applyCorrections text).drop (i + 6)).head? = some c ∧ isDigitC c = true) :
    (extractAll text).employeeID = some (((applyCorrections text).drop i).take 6) ∧
    (0 < i → ∃ c, ((applyCorrections text).drop (i - 1)).head? = some c ∧ isDigitC c = false) := by
  constructor
  · rw [extractAll, fallbackPass_employeeID, primaryPass_employeeID, hp]
    rw [Option.map_none']
    rw [fbSet_none]
    exact search6_leftmost _ i h6 hmin
  · intro hi
    have h6' := h6
    rw [sixAt, Bool.and_eq_true, decide_eq_true_iff] at h6'
    have hlen6 : 6 ≤ ((applyCorrections text).drop i).length := by
      have := h6'.1
      rw [List.length_take] at this
      omega
    have hlen : i + 6 ≤ (applyCorrections text).length := by
      rw [List.length_drop] at hlen6
      omega
    cases hdt : (applyCorrections text).drop (i - 1) with
    | nil =>
      exfalso
      have := congrArg List.length hdt
      rw [List.length_drop] at this
      simp at this
      omega
    | cons c0 xs =>
      refine ⟨c0, by simp [hdt], ?_⟩
      by_contra hd
      rw [Bool.not_eq_false] at hd
      have hxs : xs = (applyCorrections text).drop i := by
        have h1 : ((applyCorrections text).drop (i - 1)).drop 1 = (applyCorrections text).drop i := by
          rw [List.drop_drop]
          congr 1
          omega
        rw [hdt] at h1
        simpa using h1
      have hsix : sixAt (applyCorrections text) (i - 1) = true := by
        rw [sixAt, hdt, hxs]
        have ht6 : ((applyCorrections text).drop i).take 6 ≠ [] := by
          intro he
          have := congrArg List.length he
          rw [h6'.1] at this
          simp at this
        rw [List.take_succ_cons]
        rw [Bool.and_eq_true, decide_eq_true_iff]
        constructor
        · rw [List.length_cons, List.length_take]
          rw [List.length_drop] at hlen6 ⊢
          omega
        · rw [List.all_cons, Bool.and_eq_true]
          refine ⟨hd, ?_⟩
          have h5 : ((applyCorrections text).drop i).take 5 =
              (((applyCorrections text).drop i).take 6).take 5 := by
            rw [List.take_take]
            norm_num
          rw [h5]
          exact all_take _ _ _ h6'.2
      have := hmin (i - 1) (by omega)
      rw [hsix] at this
      exact absurd this (by simp)

/-- Witness for C9's theorem at `"id 1234567"`: the primary pattern fails,
six digits first start at position 3, the run continues with a seventh
digit, and `EmployeeID` becomes the run's first six digits `"123456"`. -/
theorem empid_fallback_first_six_w :
    (extractAll "id 1234567".toList).employeeID = some "123456".toList := by
  have h := empid_fallback_first_six "id 1234567".toList 3 (by decide) (by decide)
    (by decide) ⟨'7', by decide, by decide⟩
  exact h.1.trans (by decide)
